import Mathlib

/-!
# Verification of the pysigma condition compiler and evaluation driver

Shallow embedding of `src/pysigma/parser.py` and `src/pysigma/pysigma.py`.

* The lark grammar for Sigma condition strings is embedded as the inductive
  type `PT` of parse trees (one constructor per grammar production that the
  transformer can observe), together with a character-level tokenizer and a
  recursive-descent parser transcribed production by production from the
  grammar string.
* The `FactoryTransformer` is embedded as one Lean function per transformer
  method (`FT_search_id`, `FT_not_rule`, ...) plus the bottom-up fold
  `transform` that lark performs while reducing.  Transformer methods that
  `raise` are modelled with `Except`.
* Values flowing through the fold are modelled by `TVal`: compiled predicates
  (callables), plain strings (the `search_pattern` result) and raw tokens
  (e.g. `THEM`), so the defensive `callable(...)` checks of the source are
  faithfully represented and can in principle fail.
* The external collaborators (`match_search_id`, `analyze_x_of`,
  `check_timeframe`, `prepare_event_log`) live outside `src/`; they are taken
  as parameters, and where a claim needs their behaviour they are modelled
  from the spec (marked in their doc comments).

The event type `E` (and the element type `TE` of the timed-events
accumulator) are abstract type parameters throughout.
-/

/-- The part of a loaded signature that the external resolvers inspect:
the names of the declared search blocks (`detection` sections).  The
block bodies are opaque to the core (spec §3: "an identifier plus an opaque
matching specification"). -/
structure SigCore where
  searchBlocks : List String
deriving DecidableEq

/-- A value produced by one `FactoryTransformer` method and passed to the
parent node during lark's bottom-up fold: a compiled predicate (a Python
callable taking `(signature, event)`), a plain string (what `search_pattern`
returns), or an untransformed token such as `THEM` (identified by its
lark type name). -/
inductive TVal (E : Type) where
  | pred (p : SigCore → E → Bool)
  | str (s : String)
  | token (ty : String)

/-- Whether a `TVal` is a Python callable (`callable(x)` in the source). -/
def TVal.isCallable {E : Type} : TVal E → Bool
  | .pred _ => true
  | _ => false

/-- Calling a transformer value with `(*state)` as the source closures do.
Only reached for `.pred` values: the source checks `callable` first, so the
other cases (a `TypeError` in Python) are dead; they return `false` here. -/
def TVal.call {E : Type} : TVal E → SigCore → E → Bool
  | .pred p, s, e => p s e
  | .str _, _, _ => false
  | .token _, _, _ => false

/-- Failures of `prepare_condition`: a lark rejection of the input text
(`parseError`), the `UnsupportedFeature` exception raised by the
aggregation/near transformer methods, and the defensive
`ValueError`/`AssertionError`/`AttributeError` paths of the fold. -/
inductive PrepErr where
  | parseError
  | unsupportedFeature (msg : String)
  | valueError
  | assertionError
  | attributeError
deriving DecidableEq

/-- The `x` production of the grammar (`x: ALL | NUMBER`): the token kind the
`x_of` method inspects through `args[0].children[0].type`, with the `NUMBER`
payload already read off. -/
inductive XSpec where
  | all
  | num (n : Nat)
deriving DecidableEq

/-- Parse trees of the condition grammar, one constructor per production (or
token) that reaches the transformer.  Anonymous punctuation tokens are
filtered out by lark and do not appear.  The type is deliberately permissive
(any tree shape can be written down); `wf` below captures the shapes the
grammar can actually produce. -/
inductive PT where
  | searchId (name : String)
  | searchPattern (pat : String)
  | themTok
  | xOf (x : XSpec) (rhs : PT)
  | notR (negate : Bool) (child : PT)
  | atomW (child : PT)
  | andR (children : List PT)
  | orR (children : List PT)
  | pipe (body : PT) (agg : Option PT)
  | aggExpr (fn : String) (fld : Option String) (grp : Option String) (op : String) (v : Nat)
  | nearAgg (body : PT)

/-- `FactoryTransformer.search_id`: close over the block `name` and delegate
to the external single-match resolver. -/
def FT_search_id {E : Type} (match_search_id : SigCore → E → String → Bool)
    (name : String) : TVal E :=
  .pred fun signature event => match_search_id signature event name

/-- `FactoryTransformer.atom`: defensive callable check, then `args[0]`
(the grammar gives `atom` exactly one transformed child). -/
def FT_atom {E : Type} (v : TVal E) : Except PrepErr (TVal E) :=
  if v.isCallable then .ok v else .error .valueError

/-- `FactoryTransformer.not_rule`: `assert callable(value)`; with no `not`
token the child is returned as is, otherwise it is wrapped in a negating
closure. -/
def FT_not_rule {E : Type} (negate : Bool) (value : TVal E) : Except PrepErr (TVal E) :=
  match value with
  | .pred p => if negate then .ok (.pred fun s e => !(p s e)) else .ok (.pred p)
  | _ => .error .assertionError

/-- The `_and_operation` closure: scan the children left to right, stopping at
the first `false`. -/
def andLoop {E : Type} : List (TVal E) → SigCore → E → Bool
  | [], _, _ => true
  | v :: vs, s, e => if v.call s e then andLoop vs s e else false

/-- The `_or_operation` closure: scan the children left to right, stopping at
the first `true`. -/
def orLoop {E : Type} : List (TVal E) → SigCore → E → Bool
  | [], _, _ => false
  | v :: vs, s, e => if v.call s e then true else orLoop vs s e

/-- `FactoryTransformer.and_rule`: defensive callable check over all children,
the single-child degenerate case, else the short-circuiting loop closure. -/
def FT_and_rule {E : Type} (args : List (TVal E)) : Except PrepErr (TVal E) :=
  if args.all TVal.isCallable then
    match args with
    | [v] => .ok v
    | _ => .ok (.pred (andLoop args))
  else .error .valueError

/-- `FactoryTransformer.or_rule`: symmetric to `FT_and_rule`. -/
def FT_or_rule {E : Type} (args : List (TVal E)) : Except PrepErr (TVal E) :=
  if args.all TVal.isCallable then
    match args with
    | [v] => .ok v
    | _ => .ok (.pred (orLoop args))
  else .error .valueError

/-- `FactoryTransformer.x_of`: read the count from the `x` child
(`int(...)` for a `NUMBER`, `None` for `ALL`), read the selector from the
right-hand side (a `search_pattern` string, or `None` for the `THEM` token,
`ValueError` otherwise; a callable has no `.type` attribute, hence
`attributeError`), and close over the external x-of resolver. -/
def FT_x_of {E : Type}
    (analyze_x_of : SigCore → E → Option Nat → Option String → Bool)
    (x : XSpec) (rhs : TVal E) : Except PrepErr (TVal E) :=
  let count : Option Nat := match x with
    | .num n => some n
    | .all => none
  match rhs with
  | .str s => .ok (.pred fun signature event => analyze_x_of signature event count (some s))
  | .token ty =>
      if ty = "THEM" then .ok (.pred fun signature event => analyze_x_of signature event count none)
      else .error .valueError
  | .pred _ => .error .attributeError

/-- `FactoryTransformer.aggregation_expression`: always raises. -/
def FT_aggregation_expression {E : Type} : Except PrepErr (TVal E) :=
  .error (.unsupportedFeature "Aggregation expressions not supported.")

/-- `FactoryTransformer.near_aggregation`: always raises. -/
def FT_near_aggregation {E : Type} : Except PrepErr (TVal E) :=
  .error (.unsupportedFeature "Near operation not supported.")

mutual

/-- The bottom-up fold lark performs over the parse tree with the embedded
`FactoryTransformer` (children first, in source order, exceptions
propagating immediately — which is exactly `Except` bind order). -/
def transform {E : Type} (msi : SigCore → E → String → Bool)
    (axf : SigCore → E → Option Nat → Option String → Bool) : PT → Except PrepErr (TVal E)
  | .searchId name => .ok (FT_search_id msi name)
  | .searchPattern s => .ok (.str s)
  | .themTok => .ok (.token "THEM")
  | .xOf x rhs => do
      let v ← transform msi axf rhs
      FT_x_of axf x v
  | .notR neg c => do
      let v ← transform msi axf c
      FT_not_rule neg v
  | .atomW c => do
      let v ← transform msi axf c
      FT_atom v
  | .andR cs => do
      let vs ← transformList msi axf cs
      FT_and_rule vs
  | .orR cs => do
      let vs ← transformList msi axf cs
      FT_or_rule vs
  | .pipe body agg => do
      let v ← transform msi axf body
      match agg with
      | none => .ok v
      | some a => do
          let _ ← transform msi axf a
          .ok v
  | .aggExpr _ _ _ _ _ => FT_aggregation_expression
  | .nearAgg body => do
      let _ ← transform msi axf body
      FT_near_aggregation

/-- Children of an `and_rule`/`or_rule` node, transformed left to right. -/
def transformList {E : Type} (msi : SigCore → E → String → Bool)
    (axf : SigCore → E → Option Nat → Option String → Bool) : List PT → Except PrepErr (List (TVal E))
  | [] => .ok []
  | t :: ts => do
      let v ← transform msi axf t
      let vs ← transformList msi axf ts
      .ok (v :: vs)

end

mutual

/-- The reference semantics of the boolean fragment: evaluate a parse tree
under an assignment `σ` of boolean values to the search-id atoms, with the
standard meaning of the connectives.  Precedence (NOT > AND > OR, parentheses
overriding) is embodied in the tree shape the grammar produces.  Constructors
outside the boolean fragment evaluate to `false`; they are excluded by
`boolOnly` wherever this function is used. -/
def evalStd (σ : String → Bool) : PT → Bool
  | .searchId n => σ n
  | .notR neg c => if neg then !(evalStd σ c) else evalStd σ c
  | .atomW c => evalStd σ c
  | .andR cs => evalAnd σ cs
  | .orR cs => evalOr σ cs
  | .pipe body _ => evalStd σ body
  | _ => false

def evalAnd (σ : String → Bool) : List PT → Bool
  | [] => true
  | t :: ts => evalStd σ t && evalAnd σ ts

def evalOr (σ : String → Bool) : List PT → Bool
  | [] => false
  | t :: ts => evalStd σ t || evalOr σ ts

end

mutual

/-- The boolean fragment of the condition language: search-id atoms combined
with AND, OR, NOT and parentheses only (no quantifiers, no aggregation). -/
def boolOnly : PT → Bool
  | .searchId _ => true
  | .notR _ c => boolOnly c
  | .atomW c => boolOnly c
  | .andR cs => boolOnlyList cs
  | .orR cs => boolOnlyList cs
  | .pipe body agg => boolOnly body && agg.isNone
  | _ => false

def boolOnlyList : List PT → Bool
  | [] => true
  | t :: ts => boolOnly t && boolOnlyList ts

end

mutual

/-- Whether a tree contains an aggregation clause (a `| ...` pipe tail, i.e.
an `aggregation_expression` or `near_aggregation` node) anywhere. -/
def hasAgg : PT → Bool
  | .searchId _ => false
  | .searchPattern _ => false
  | .themTok => false
  | .xOf _ rhs => hasAgg rhs
  | .notR _ c => hasAgg c
  | .atomW c => hasAgg c
  | .andR cs => hasAggList cs
  | .orR cs => hasAggList cs
  | .pipe body agg => hasAgg body || agg.isSome
  | .aggExpr _ _ _ _ _ => true
  | .nearAgg _ => true

def hasAggList : List PT → Bool
  | [] => false
  | t :: ts => hasAgg t || hasAggList ts

end

/-- The right-hand side of `x_of` as the grammar produces it: either a
`search_pattern` (a string after transformation) or the `THEM` token. -/
def rhsOk : PT → Bool
  | .searchPattern _ => true
  | .themTok => true
  | _ => false

mutual

/-- Trees the grammar can actually produce ("grammatical input"): children of
the boolean connectives are rule-level nodes, the right-hand side of `x_of`
is a pattern or `THEM`, and aggregation nodes appear only in the optional
pipe tail. -/
def wf : PT → Bool
  | .searchId _ => true
  | .searchPattern _ => false
  | .themTok => false
  | .xOf _ rhs => rhsOk rhs
  | .notR _ c => wf c
  | .atomW c => wf c
  | .andR cs => wfList cs
  | .orR cs => wfList cs
  | .pipe body agg => wf body && aggOk agg
  | .aggExpr _ _ _ _ _ => false
  | .nearAgg _ => false

def wfList : List PT → Bool
  | [] => true
  | t :: ts => wf t && wfList ts

def aggOk : Option PT → Bool
  | none => true
  | some (.aggExpr _ _ _ _ _) => true
  | some (.nearAgg b) => wf b
  | some _ => false

end

/-- Tokens of the condition language.  The lexer ignores spaces; punctuation
is single-character; every maximal run of identifier characters (including
`*`, legal only inside `search_pattern`) is one `word`, classified by the
parser according to the terminals acceptable in the current state — which is
how lark's contextual LALR lexer resolves keyword/identifier overlaps. -/
inductive Tok where
  | word (s : String)
  | lpar
  | rpar
  | pipeTok
  | gtTok
  | ltTok
  | eqTok
deriving DecidableEq

/-- Characters that may occur inside a word token. -/
def isWordChar (c : Char) : Bool :=
  c.isAlphanum || c = '_' || c = '*'

/-- Flush the (reversed) run of word characters collected so far as one
`word` token, if the run is non-empty. -/
def emitWord (acc : List Char) (ts : List Tok) : List Tok :=
  match acc with
  | [] => ts
  | _ => Tok.word (String.mk acc.reverse) :: ts

/-- Worker of the lexer: one pass over the characters, accumulating the
current word run (in reverse) in `acc`. -/
def tokenizeAux : List Char → List Char → Except PrepErr (List Tok)
  | [], acc => .ok (emitWord acc [])
  | c :: cs, acc =>
    if isWordChar c then tokenizeAux cs (c :: acc)
    else do
      let tail ←
        if c = ' ' then tokenizeAux cs []
        else if c = '(' then do
          let ts ← tokenizeAux cs []
          .ok (Tok.lpar :: ts)
        else if c = ')' then do
          let ts ← tokenizeAux cs []
          .ok (Tok.rpar :: ts)
        else if c = '|' then do
          let ts ← tokenizeAux cs []
          .ok (Tok.pipeTok :: ts)
        else if c = '>' then do
          let ts ← tokenizeAux cs []
          .ok (Tok.gtTok :: ts)
        else if c = '<' then do
          let ts ← tokenizeAux cs []
          .ok (Tok.ltTok :: ts)
        else if c = '=' then do
          let ts ← tokenizeAux cs []
          .ok (Tok.eqTok :: ts)
        else .error .parseError
      .ok (emitWord acc tail)

/-- The lexer: spaces ignored (`%ignore " "`), punctuation is
single-character, maximal word runs become single `word` tokens; any other
character is rejected exactly as lark rejects an unlexable character. -/
def tokenizeChars (cs : List Char) : Except PrepErr (List Tok) :=
  tokenizeAux cs []

/-- Shape of the `SEARCH_ID` terminal: `/[a-zA-Z_][a-zA-Z0-9_]*/`. -/
def isSearchIdStr (s : String) : Bool :=
  match s.data with
  | [] => false
  | c :: cs => (c.isAlpha || c = '_') && cs.all (fun d => d.isAlphanum || d = '_')

/-- Shape of the `NUMBER` terminal: `/[1-9][0-9]*/`. -/
def isNumberStr (s : String) : Bool :=
  match s.data with
  | [] => false
  | c :: cs => (decide ('1' ≤ c) && decide (c ≤ '9')) && cs.all Char.isDigit

/-- Shape of the `search_pattern` terminal: `/[a-zA-Z_][a-zA-Z0-9*_]*/`. -/
def isPatternStr (s : String) : Bool :=
  match s.data with
  | [] => false
  | c :: cs => (c.isAlpha || c = '_') && cs.all (fun d => d.isAlphanum || d = '_' || d = '*')

/-- `int(...)` on a `NUMBER` token. -/
def strToNat (s : String) : Nat :=
  s.data.foldl (fun n c => 10 * n + (c.toNat - 48)) 0

/-- Shape of the aggregation-function keywords `COUNT|MIN|MAX|AVG|SUM`. -/
def isAggFn (s : String) : Bool :=
  s = "count" || s = "min" || s = "max" || s = "avg" || s = "sum"

mutual

/-- `pipe_rule: or_rule ["|" aggregation_expression]`. -/
def parsePipeRule : Nat → List Tok → Except PrepErr (PT × List Tok)
  | 0, _ => .error .parseError
  | fuel + 1, toks => do
    let (body, rest) ← parseOrRule fuel toks
    match rest with
    | .pipeTok :: rest2 => do
        let (agg, rest3) ← parseAggExpr fuel rest2
        .ok (PT.pipe body (some agg), rest3)
    | _ => .ok (PT.pipe body none, rest)
termination_by structural fuel _ => fuel

/-- `or_rule: and_rule (("or"|"OR") and_rule)*`. -/
def parseOrRule : Nat → List Tok → Except PrepErr (PT × List Tok)
  | 0, _ => .error .parseError
  | fuel + 1, toks => do
    let (a, rest) ← parseAndRule fuel toks
    let (more, rest2) ← parseOrTail fuel rest
    .ok (PT.orR (a :: more), rest2)
termination_by structural fuel _ => fuel

/-- The `(("or"|"OR") and_rule)*` tail of `or_rule`. -/
def parseOrTail : Nat → List Tok → Except PrepErr (List PT × List Tok)
  | 0, _ => .error .parseError
  | fuel + 1, toks =>
    match toks with
    | .word s :: rest =>
      if s = "or" || s = "OR" then do
        let (a, rest2) ← parseAndRule fuel rest
        let (more, rest3) ← parseOrTail fuel rest2
        .ok (a :: more, rest3)
      else .ok ([], toks)
    | _ => .ok ([], toks)
termination_by structural fuel _ => fuel

/-- `and_rule: not_rule (("and"|"AND") not_rule)*`. -/
def parseAndRule : Nat → List Tok → Except PrepErr (PT × List Tok)
  | 0, _ => .error .parseError
  | fuel + 1, toks => do
    let (a, rest) ← parseNotRule fuel toks
    let (more, rest2) ← parseAndTail fuel rest
    .ok (PT.andR (a :: more), rest2)
termination_by structural fuel _ => fuel

/-- The `(("and"|"AND") not_rule)*` tail of `and_rule`. -/
def parseAndTail : Nat → List Tok → Except PrepErr (List PT × List Tok)
  | 0, _ => .error .parseError
  | fuel + 1, toks =>
    match toks with
    | .word s :: rest =>
      if s = "and" || s = "AND" then do
        let (a, rest2) ← parseNotRule fuel rest
        let (more, rest3) ← parseAndTail fuel rest2
        .ok (a :: more, rest3)
      else .ok ([], toks)
    | _ => .ok ([], toks)
termination_by structural fuel _ => fuel

/-- `not_rule: [not] atom` with `not: "NOT" | "not"` (the keyword wins over
`SEARCH_ID` in this state, as for every string-literal terminal in lark). -/
def parseNotRule : Nat → List Tok → Except PrepErr (PT × List Tok)
  | 0, _ => .error .parseError
  | fuel + 1, toks =>
    match toks with
    | .word s :: rest =>
      if s = "not" || s = "NOT" then do
        let (a, rest2) ← parseAtom fuel rest
        .ok (PT.notR true a, rest2)
      else do
        let (a, rest2) ← parseAtom fuel toks
        .ok (PT.notR false a, rest2)
    | _ => do
        let (a, rest2) ← parseAtom fuel toks
        .ok (PT.notR false a, rest2)
termination_by structural fuel _ => fuel

/-- `atom: x_of | search_id | "(" pipe_rule ")"`.  In this state the
acceptable terminals are `ALL`, `NUMBER`, `SEARCH_ID` and `(`; the literal
`all` lexes as `ALL` (keyword priority) and digits as `NUMBER`, both starting
an `x_of`. -/
def parseAtom : Nat → List Tok → Except PrepErr (PT × List Tok)
  | 0, _ => .error .parseError
  | fuel + 1, toks =>
    match toks with
    | .lpar :: rest => do
        let (inner, rest2) ← parsePipeRule fuel rest
        match rest2 with
        | .rpar :: rest3 => .ok (PT.atomW inner, rest3)
        | _ => .error .parseError
    | .word s :: rest =>
        if s = "all" then do
          let (rhs, rest2) ← parseXRhs fuel rest
          .ok (PT.atomW (PT.xOf .all rhs), rest2)
        else if isNumberStr s then do
          let (rhs, rest2) ← parseXRhs fuel rest
          .ok (PT.atomW (PT.xOf (.num (strToNat s)) rhs), rest2)
        else if isSearchIdStr s then .ok (PT.atomW (PT.searchId s), rest)
        else .error .parseError
    | _ => .error .parseError
termination_by structural fuel _ => fuel

/-- `x_of: x OF (THEM | search_pattern)` after the `x` part: expect `of`,
then `them` (keyword priority) or a `search_pattern`. -/
def parseXRhs : Nat → List Tok → Except PrepErr (PT × List Tok)
  | 0, _ => .error .parseError
  | _ + 1, toks =>
    match toks with
    | .word o :: .word s :: rest =>
      if o = "of" then
        if s = "them" then .ok (PT.themTok, rest)
        else if isPatternStr s then .ok (PT.searchPattern s, rest)
        else .error .parseError
      else .error .parseError
    | _ => .error .parseError

/-- `aggregation_expression: aggregation_function "(" [aggregation_field] ")"
[ "by" group_field ] comparison_op value | near_aggregation` with
`near_aggregation: "near" or_rule`. -/
def parseAggExpr : Nat → List Tok → Except PrepErr (PT × List Tok)
  | 0, _ => .error .parseError
  | fuel + 1, toks =>
    match toks with
    | .word s :: rest =>
      if s = "near" then do
        let (body, rest2) ← parseOrRule fuel rest
        .ok (PT.nearAgg body, rest2)
      else if isAggFn s then
        match rest with
        | .lpar :: rest2 => do
          let (fld, rest3) ←
            match rest2 with
            | .word f :: r3 =>
                if isSearchIdStr f then (.ok (some f, r3) : Except PrepErr (Option String × List Tok))
                else .error .parseError
            | _ => .ok (none, rest2)
          match rest3 with
          | .rpar :: rest4 => do
            let (grp, rest5) ←
              match rest4 with
              | .word b :: .word g :: r5 =>
                  if b = "by" then
                    if isSearchIdStr g then (.ok (some g, r5) : Except PrepErr (Option String × List Tok))
                    else .error .parseError
                  else .ok (none, rest4)
              | _ => .ok (none, rest4)
            match rest5 with
            | op :: .word nstr :: rest6 =>
              if isNumberStr nstr then
                match op with
                | .gtTok => .ok (PT.aggExpr s fld grp ">" (strToNat nstr), rest6)
                | .ltTok => .ok (PT.aggExpr s fld grp "<" (strToNat nstr), rest6)
                | .eqTok => .ok (PT.aggExpr s fld grp "=" (strToNat nstr), rest6)
                | _ => .error .parseError
              else .error .parseError
            | _ => .error .parseError
          | _ => .error .parseError
        | _ => .error .parseError
      else .error .parseError
    | _ => .error .parseError
termination_by structural fuel _ => fuel

end

/-- `Lark(grammar, ...).parse`: tokenize, parse a `start: pipe_rule` and
require the whole input to be consumed (`start` returns `args[0]`, so the
tree of the `pipe_rule` is the result).  The fuel bound `5 * length + 5`
dominates the parser's call depth, which descends at least one token every
five nested calls. -/
def parseCondition (s : String) : Except PrepErr PT := do
  let toks ← tokenizeChars s.data
  let (t, rest) ← parsePipeRule (5 * toks.length + 5) toks
  match rest with
  | [] => .ok t
  | _ => .error .parseError

/-- The argument of `prepare_condition`: `Union[str, list]`. -/
inductive RawCondition where
  | str (s : String)
  | list (fragments : List String)

/-- The string built by `prepare_condition` for a fragment list:
`'(' + ') or ('.join(raw_condition) + ')'`. -/
def joinFragments (fs : List String) : String :=
  "(" ++ String.intercalate ") or (" fs ++ ")"

/-- `prepare_condition`: a fragment list is first rewritten into the single
parenthesized-OR string, then the (transformer-carrying) parser is applied. -/
def prepare_condition {E : Type} (msi : SigCore → E → String → Bool)
    (axf : SigCore → E → Option Nat → Option String → Bool)
    (rc : RawCondition) : Except PrepErr (TVal E) :=
  let raw : String :=
    match rc with
    | .str s => s
    | .list fs => joinFragments fs
  do
    let t ← parseCondition raw
    transform msi axf t

/-- Observe a compilation result as a predicate: `some` of the predicate's
verdict on `(signature, event)` when compilation produced a callable,
`none` otherwise. -/
def runResult {E : Type} (r : Except PrepErr (TVal E)) (s : SigCore) (e : E) : Option Bool :=
  match r with
  | .ok (.pred p) => some (p s e)
  | _ => none

/-- A loaded signature as the driver sees it (`signatures.load_signature` is
an external collaborator; its result is taken as given).  The compiled
condition predicate takes the signature core and the event, matching the
`condition(rule_obj, event)` call in `check_event`. -/
structure Rule (E : Type) where
  title : String
  core : SigCore
  condition : SigCore → E → Bool
  timeframe : Option Nat
  description : String
  level : String
  file_name : String

/-- `Alert(rule_name, description, event, level, file_name)` from the
`build_alert` collaborator. -/
structure Alert (E : Type) where
  name : String
  description : String
  event : E
  level : String
  file_name : String
deriving DecidableEq

/-- Modelled from the spec: `callback_buildReport` (from the `build_alert`
module, which is not under `src/`) appends the constructed alert to the
outgoing alerts collection ("produced once per confirmed, non-suppressed
match", "appended via a reporting callback"). -/
def callback_buildReport {E : Type} (alerts : List (Alert E)) (alert : Alert E) : List (Alert E) :=
  alerts ++ [alert]

/-- A Python dict as an insertion-ordered association list with unique
keys: lookup. -/
def dictGet {α : Type} (d : List (String × α)) (k : String) : Option α :=
  (d.find? (fun p => p.1 == k)).map (fun p => p.2)

/-- Python `k in d`. -/
def dictContains {α : Type} (d : List (String × α)) (k : String) : Bool :=
  d.any (fun p => p.1 == k)

/-- Python `d[k] = v`: replace in place if the key is present, else append. -/
def dictSet {α : Type} (d : List (String × α)) (k : String) (v : α) : List (String × α) :=
  if dictContains d k then d.map (fun p => if p.1 == k then (k, v) else p)
  else d ++ [(k, v)]

/-- Python `del d[k]` (under the dict invariant that keys are unique,
removing every binding of `k` is removing the one binding). -/
def dictDel {α : Type} (d : List (String × α)) (k : String) : List (String × α) :=
  d.filter (fun p => !(p.1 == k))

/-- The body of the rule loop of `check_event`: one `(rule_name, rule_obj)`
step over the `(alerts, timed_events)` state; a matching rule either goes
through the external timeframe correlator `check_timeframe` (a parameter
here, modelled as returning the updated accumulator and alerts it mutates)
or produces an `Alert` reported via `callback_buildReport`. -/
def check_event_step {E TE : Type}
    (check_timeframe : Rule E → String → List TE → E → List (Alert E) → List TE × List (Alert E))
    (event : E) (st : List (Alert E) × List TE) (entry : String × Rule E) :
    List (Alert E) × List TE :=
  let alerts := st.1
  let timed_events := st.2
  let rule_name := entry.1
  let rule_obj := entry.2
  if rule_obj.condition rule_obj.core event then
    match rule_obj.timeframe with
    | some _ =>
        let res := check_timeframe rule_obj rule_name timed_events event alerts
        (res.2, res.1)
    | none =>
        let alert : Alert E :=
          ⟨rule_name, rule_obj.description, event, rule_obj.level, rule_obj.file_name⟩
        (callback_buildReport alerts alert, timed_events)
  else st

/-- `check_event(raw_event, rules)`: normalize the event, then scan the rules
in registry order, threading the alerts list and the locally created,
initially empty `timed_events` list through `check_event_step`. -/
def check_event {RawE E TE : Type} (prepare_event_log : RawE → E)
    (check_timeframe : Rule E → String → List TE → E → List (Alert E) → List TE × List (Alert E))
    (raw_event : RawE) (rules : List (String × Rule E)) : List (Alert E) :=
  let event := prepare_event_log raw_event
  let final := rules.foldl (check_event_step check_timeframe event) ([], [])
  final.1

/-- The `PySigma` instance state: the rule registry keyed by title, and the
optional per-alert callback (invoked for side effect only; it returns no
information, so it does not influence the model's observables). -/
structure PySigma (E : Type) where
  rules : List (String × Rule E)
  callback : Option (Alert E → E → Unit)

/-- The fixed deny-list inside `check_events`. -/
def forbidden_rules : List String :=
  ["RDP over Reverse SSH Tunnel WFP", "Suspicious Execution from Outlook"]

/-- The deny-list loop of `check_events`: `for r in forbidden_rules: if r in
self.rules: del self.rules[r]`. -/
def removeForbidden {E : Type} (rules : List (String × Rule E)) : List (String × Rule E) :=
  forbidden_rules.foldl (fun rs r => if dictContains rs r then dictDel rs r else rs) rules

/-- `PySigma.check_events`: delete the deny-listed titles from the instance's
own registry, then fold `check_event` over the events, concatenating alerts.
Returns the alerts together with the updated instance state (the registry
mutation is permanent). -/
def check_events {RawE E TE : Type} (prepare_event_log : RawE → E)
    (check_timeframe : Rule E → String → List TE → E → List (Alert E) → List TE × List (Alert E))
    (s : PySigma E) (events : List RawE) : List (Alert E) × PySigma E :=
  let rules := removeForbidden s.rules
  let all_alerts :=
    events.foldl
      (fun acc event => acc ++ check_event prepare_event_log check_timeframe event rules) []
  (all_alerts, { s with rules := rules })

/-- `PySigma.add_signature`: load (externally) and store under the
signature's title — `self.rules[signature.title] = signature`. -/
def add_signature {E : Type} (s : PySigma E) (signature : Rule E) : PySigma E :=
  { s with rules := dictSet s.rules signature.title signature }

/-- Modelled from the spec: wildcard matching of a search-block name pattern
("a name pattern selecting a subset of declared search blocks by wildcard
match", §4.1); `*` matches any (possibly empty) run of characters. -/
def globMatch : List Char → List Char → Bool
  | [], [] => true
  | [], _ :: _ => false
  | '*' :: ps, [] => globMatch ps []
  | '*' :: ps, c :: cs => globMatch ps (c :: cs) || globMatch ('*' :: ps) cs
  | _ :: _, [] => false
  | p :: ps, c :: cs => p == c && globMatch ps cs
termination_by ps cs => (ps.length, cs.length)
decreasing_by
  all_goals simp only [List.length_cons]
  · exact Prod.Lex.left _ _ (Nat.lt_succ_self _)
  · exact Prod.Lex.left _ _ (Nat.lt_succ_self _)
  · exact Prod.Lex.right _ (Nat.lt_succ_self _)
  · exact Prod.Lex.left _ _ (Nat.lt_succ_self _)

/-- Modelled from the spec: `analyze_x_of` (from the `sigma_scan` module,
which is not under `src/`), the external x-of resolver with signature
`(Signature, Event, requiredCount-or-ALL, selector-or-none) → bool` (§6):
the selector (`None` for THEM) picks the declared search blocks (all of
them, or those whose name matches the wildcard pattern); with count `None`
(ALL) the result is true iff every selected block matches the event per the
single-match resolver, with an explicit count `n` iff at least `n` selected
blocks match (§4.2). -/
def analyze_x_of_model {E : Type} (msi : SigCore → E → String → Bool)
    (sig : SigCore) (event : E) (count : Option Nat) (selector : Option String) : Bool :=
  let selected :=
    match selector with
    | none => sig.searchBlocks
    | some pat => sig.searchBlocks.filter (fun b => globMatch pat.data b.data)
  match count with
  | none => selected.all (fun b => msi sig event b)
  | some n => decide (n ≤ (selected.filter (fun b => msi sig event b)).length)


/-- A compilation outcome that is one of the two `UnsupportedFeature`
failures, each naming its construct. -/
def isUnsupported {α : Type} (r : Except PrepErr α) : Prop :=
  r = .error (.unsupportedFeature "Aggregation expressions not supported.") ∨
  r = .error (.unsupportedFeature "Near operation not supported.")

/-- Sample single-match resolver over `Nat` events for concrete checks:
only the block named `a` matches. -/
def msiW : SigCore → Nat → String → Bool := fun _ _ n => n == "a"

/-- Sample x-of resolver for concrete checks. -/
def axfW : SigCore → Nat → Option Nat → Option String → Bool := fun _ _ c _ => c.isNone

/-- The parse tree of `"a or b and c"` (AND binds tighter than OR). -/
def tC1 : PT :=
  .pipe
    (.orR [.andR [.notR false (.atomW (.searchId "a"))],
           .andR [.notR false (.atomW (.searchId "b")),
                  .notR false (.atomW (.searchId "c"))]])
    none

/-- The parse tree of `"a | count() > 5"`. -/
def tC2 : PT :=
  .pipe (.orR [.andR [.notR false (.atomW (.searchId "a"))]])
    (some (.aggExpr "count" none none ">" 5))

/-- A rule with a timeframe whose condition always matches, used to exercise
the timeframe-correlation path. -/
def tfRule : Rule Nat :=
  { title := "tf-rule", core := ⟨["a"]⟩, condition := fun _ _ => true,
    timeframe := some 30, description := "d", level := "high", file_name := "f" }

/-- A rule without a timeframe whose condition always matches. -/
def goodRule : Rule Nat :=
  { title := "good", core := ⟨["a"]⟩, condition := fun _ _ => true,
    timeframe := none, description := "gd", level := "low", file_name := "gf" }

/-- A rule registered under the first deny-listed title. -/
def rdpRule : Rule Nat :=
  { title := "RDP over Reverse SSH Tunnel WFP", core := ⟨["a"]⟩,
    condition := fun _ _ => true, timeframe := none, description := "rd",
    level := "high", file_name := "rf" }

/-- A correlator instance that appends the event to the accumulator and
records, in the `event` field of a fresh alert, the size of the accumulator
it was handed — enough to observe the state each invocation receives. -/
def recordingCorrelator :
    Rule Nat → String → List Nat → Nat → List (Alert Nat) → List Nat × List (Alert Nat) :=
  fun _ name timed ev alerts => (timed ++ [ev], alerts ++ [⟨name, "acc-size", timed.length, "", ""⟩])

/-- A correlator instance that changes nothing. -/
def inertCorrelator {E TE : Type} :
    Rule E → String → List TE → E → List (Alert E) → List TE × List (Alert E) :=
  fun _ _ timed _ alerts => (timed, alerts)

/-- A sample registry state holding `goodRule` and a deny-listed rule. -/
def sampleState : PySigma Nat :=
  { rules := [("good", goodRule), ("RDP over Reverse SSH Tunnel WFP", rdpRule)],
    callback := none }

theorem andLoop_map {E : Type} (g : PT → SigCore → E → Bool) (cs : List PT)
    (s : SigCore) (e : E) :
    andLoop (cs.map fun t => TVal.pred (g t)) s e = cs.all (fun t => g t s e) := by
  induction cs with
  | nil => simp [andLoop]
  | cons t ts ih => by_cases hg : g t s e <;> simp [andLoop, TVal.call, hg, ih]

theorem orLoop_map {E : Type} (g : PT → SigCore → E → Bool) (cs : List PT)
    (s : SigCore) (e : E) :
    orLoop (cs.map fun t => TVal.pred (g t)) s e = cs.any (fun t => g t s e) := by
  induction cs with
  | nil => simp [orLoop]
  | cons t ts ih => by_cases hg : g t s e <;> simp [orLoop, TVal.call, hg, ih]

theorem evalAnd_eq_all (σ : String → Bool) (cs : List PT) :
    evalAnd σ cs = cs.all (evalStd σ) := by
  induction cs with
  | nil => simp [evalAnd]
  | cons t ts ih => simp [evalAnd, ih]

theorem evalOr_eq_any (σ : String → Bool) (cs : List PT) :
    evalOr σ cs = cs.any (evalStd σ) := by
  induction cs with
  | nil => simp [evalOr]
  | cons t ts ih => simp [evalOr, ih]

theorem FT_and_rule_map_pred {E : Type} (g : PT → SigCore → E → Bool) (cs : List PT) :
    FT_and_rule (cs.map fun t => TVal.pred (g t)) =
      .ok (.pred fun s e => cs.all (fun t => g t s e)) := by
  match cs with
  | [] =>
      have hfun : andLoop ([] : List (TVal E)) =
          fun s e => ([] : List PT).all (fun t => g t s e) := by
        funext s e
        simp [andLoop]
      simp [FT_and_rule, hfun]
  | [t] =>
      simp [FT_and_rule, TVal.isCallable]
  | t1 :: t2 :: ts =>
      have hfun : andLoop (TVal.pred (g t1) :: TVal.pred (g t2) :: ts.map fun t => TVal.pred (g t)) =
          fun s e => g t1 s e && (g t2 s e && ts.all fun t => g t s e) := by
        funext s e
        have h2 := andLoop_map g (t1 :: t2 :: ts) s e
        simpa using h2
      simp [FT_and_rule, TVal.isCallable, List.all_map, Function.comp, hfun]

theorem FT_or_rule_map_pred {E : Type} (g : PT → SigCore → E → Bool) (cs : List PT) :
    FT_or_rule (cs.map fun t => TVal.pred (g t)) =
      .ok (.pred fun s e => cs.any (fun t => g t s e)) := by
  match cs with
  | [] =>
      have hfun : orLoop ([] : List (TVal E)) =
          fun s e => ([] : List PT).any (fun t => g t s e) := by
        funext s e
        simp [orLoop]
      simp [FT_or_rule, hfun]
  | [t] =>
      simp [FT_or_rule, TVal.isCallable]
  | t1 :: t2 :: ts =>
      have hfun : orLoop (TVal.pred (g t1) :: TVal.pred (g t2) :: ts.map fun t => TVal.pred (g t)) =
          fun s e => g t1 s e || (g t2 s e || ts.any fun t => g t s e) := by
        funext s e
        have h2 := orLoop_map g (t1 :: t2 :: ts) s e
        simpa using h2
      simp [FT_or_rule, TVal.isCallable, List.all_map, Function.comp, hfun]

mutual

/-- Over the boolean fragment, the transformer fold succeeds and the compiled
predicate computes exactly the standard-precedence evaluation of the tree
under the assignment induced by the single-match resolver. -/
theorem transform_boolOnly {E : Type} (msi : SigCore → E → String → Bool)
    (axf : SigCore → E → Option Nat → Option String → Bool) :
    ∀ t : PT, boolOnly t = true →
      transform msi axf t = .ok (.pred fun s e => evalStd (fun n => msi s e n) t)
  | .searchId name, _ => by
      simp [transform, FT_search_id, evalStd]
  | .notR neg c, h => by
      have hc : boolOnly c = true := by simpa [boolOnly] using h
      have ih := transform_boolOnly msi axf c hc
      have step : transform msi axf (.notR neg c) =
          FT_not_rule neg (.pred fun s e => evalStd (fun n => msi s e n) c) := by
        simp only [transform, ih]
        rfl
      cases neg with
      | true =>
          rw [step]
          simp [FT_not_rule, evalStd]
      | false =>
          rw [step]
          simp [FT_not_rule, evalStd]
  | .atomW c, h => by
      have hc : boolOnly c = true := by simpa [boolOnly] using h
      have ih := transform_boolOnly msi axf c hc
      have step : transform msi axf (.atomW c) =
          FT_atom (.pred fun s e => evalStd (fun n => msi s e n) c) := by
        simp only [transform, ih]
        rfl
      rw [step]
      simp [FT_atom, TVal.isCallable, evalStd]
  | .andR cs, h => by
      have hcs : boolOnlyList cs = true := by simpa [boolOnly] using h
      have ih := transformList_boolOnly msi axf cs hcs
      have step : transform msi axf (.andR cs) =
          FT_and_rule (cs.map fun t => TVal.pred fun s e => evalStd (fun n => msi s e n) t) := by
        simp only [transform, ih]
        rfl
      rw [step, FT_and_rule_map_pred (fun t s e => evalStd (fun n => msi s e n) t) cs]
      simp [evalStd, evalAnd_eq_all]
  | .orR cs, h => by
      have hcs : boolOnlyList cs = true := by simpa [boolOnly] using h
      have ih := transformList_boolOnly msi axf cs hcs
      have step : transform msi axf (.orR cs) =
          FT_or_rule (cs.map fun t => TVal.pred fun s e => evalStd (fun n => msi s e n) t) := by
        simp only [transform, ih]
        rfl
      rw [step, FT_or_rule_map_pred (fun t s e => evalStd (fun n => msi s e n) t) cs]
      simp [evalStd, evalOr_eq_any]
  | .pipe body agg, h => by
      have hb : boolOnly body = true := by
        have := h
        simp [boolOnly] at this
        exact this.1
      have hagg : agg = none := by
        have := h
        simp [boolOnly] at this
        exact this.2
      subst hagg
      have ih := transform_boolOnly msi axf body hb
      have step : transform msi axf (.pipe body none) =
          Except.ok (.pred fun s e => evalStd (fun n => msi s e n) body) := by
        simp only [transform, ih]
        rfl
      rw [step]
      simp [evalStd]

/-- List version of `transform_boolOnly` for the children of a connective. -/
theorem transformList_boolOnly {E : Type} (msi : SigCore → E → String → Bool)
    (axf : SigCore → E → Option Nat → Option String → Bool) :
    ∀ ts : List PT, boolOnlyList ts = true →
      transformList msi axf ts =
        .ok (ts.map fun t => .pred fun s e => evalStd (fun n => msi s e n) t)
  | [], _ => by simp [transformList]
  | t :: ts, h => by
      have ht : boolOnly t = true := by
        have := h
        simp [boolOnlyList] at this
        exact this.1
      have hts : boolOnlyList ts = true := by
        have := h
        simp [boolOnlyList] at this
        exact this.2
      have ih1 := transform_boolOnly msi axf t ht
      have ih2 := transformList_boolOnly msi axf ts hts
      have step : transformList msi axf (t :: ts) =
          Except.ok ((t :: ts).map fun u => .pred fun s e => evalStd (fun n => msi s e n) u) := by
        simp only [transformList, ih1, ih2]
        rfl
      rw [step]

end

theorem FT_and_rule_ok {E : Type} (vs : List (TVal E))
    (h : vs.all TVal.isCallable = true) : ∃ p, FT_and_rule vs = .ok (.pred p) := by
  match vs with
  | [] => exact ⟨andLoop [], by simp [FT_and_rule]⟩
  | [v] =>
      match v with
      | .pred p => exact ⟨p, by simp [FT_and_rule, TVal.isCallable]⟩
      | .str s => simp [TVal.isCallable] at h
      | .token ty => simp [TVal.isCallable] at h
  | a :: b :: t =>
      refine ⟨andLoop (a :: b :: t), ?_⟩
      simp only [FT_and_rule, h, if_true]

theorem FT_or_rule_ok {E : Type} (vs : List (TVal E))
    (h : vs.all TVal.isCallable = true) : ∃ p, FT_or_rule vs = .ok (.pred p) := by
  match vs with
  | [] => exact ⟨orLoop [], by simp [FT_or_rule]⟩
  | [v] =>
      match v with
      | .pred p => exact ⟨p, by simp [FT_or_rule, TVal.isCallable]⟩
      | .str s => simp [TVal.isCallable] at h
      | .token ty => simp [TVal.isCallable] at h
  | a :: b :: t =>
      refine ⟨orLoop (a :: b :: t), ?_⟩
      simp only [FT_or_rule, h, if_true]

mutual

/-- Shape of compilation outcomes on grammatical trees: a tree containing an
aggregation (or near) clause compiles to one of the two `UnsupportedFeature`
failures, and a tree without one compiles to a callable predicate — never to
the defensive `ValueError`/`AssertionError`/`AttributeError` paths. -/
theorem transform_wf {E : Type} (msi : SigCore → E → String → Bool)
    (axf : SigCore → E → Option Nat → Option String → Bool) :
    ∀ t : PT, wf t = true →
      (hasAgg t = true → isUnsupported (transform msi axf t)) ∧
      (hasAgg t = false → ∃ p, transform msi axf t = .ok (.pred p))
  | .searchId name, _ => by
      constructor
      · intro hagg
        simp [hasAgg] at hagg
      · intro _
        exact ⟨_, rfl⟩
  | .searchPattern s, hwf => by simp [wf] at hwf
  | .themTok, hwf => by simp [wf] at hwf
  | .xOf x rhs, hwf => by
      have hr : rhsOk rhs = true := by simpa [wf] using hwf
      constructor
      · intro hagg
        match rhs, hr with
        | .searchPattern s, _ => simp [hasAgg] at hagg
        | .themTok, _ => simp [hasAgg] at hagg
      · intro _
        match rhs, hr with
        | .searchPattern s, _ => exact ⟨_, rfl⟩
        | .themTok, _ => exact ⟨_, rfl⟩
  | .notR neg c, hwf => by
      have hc : wf c = true := by simpa [wf] using hwf
      have ih := transform_wf msi axf c hc
      constructor
      · intro hagg
        have hac : hasAgg c = true := by simpa [hasAgg] using hagg
        rcases ih.1 hac with h1 | h1
        · left
          simp only [transform, h1]
          rfl
        · right
          simp only [transform, h1]
          rfl
      · intro hagg
        have hac : hasAgg c = false := by simpa [hasAgg] using hagg
        rcases ih.2 hac with ⟨p, hp⟩
        cases neg with
        | true =>
            refine ⟨fun s e => !(p s e), ?_⟩
            simp only [transform, hp]
            rfl
        | false =>
            refine ⟨p, ?_⟩
            simp only [transform, hp]
            rfl
  | .atomW c, hwf => by
      have hc : wf c = true := by simpa [wf] using hwf
      have ih := transform_wf msi axf c hc
      constructor
      · intro hagg
        have hac : hasAgg c = true := by simpa [hasAgg] using hagg
        rcases ih.1 hac with h1 | h1
        · left
          simp only [transform, h1]
          rfl
        · right
          simp only [transform, h1]
          rfl
      · intro hagg
        have hac : hasAgg c = false := by simpa [hasAgg] using hagg
        rcases ih.2 hac with ⟨p, hp⟩
        refine ⟨p, ?_⟩
        simp only [transform, hp]
        rfl
  | .andR cs, hwf => by
      have hcs : wfList cs = true := by simpa [wf] using hwf
      have ih := transformList_wf msi axf cs hcs
      constructor
      · intro hagg
        have hac : hasAggList cs = true := by simpa [hasAgg] using hagg
        rcases ih.1 hac with h1 | h1
        · left
          simp only [transform, h1]
          rfl
        · right
          simp only [transform, h1]
          rfl
      · intro hagg
        have hac : hasAggList cs = false := by simpa [hasAgg] using hagg
        rcases ih.2 hac with ⟨vs, hvs, hcall⟩
        rcases FT_and_rule_ok vs hcall with ⟨p, hp⟩
        refine ⟨p, ?_⟩
        simp only [transform, hvs]
        exact hp
  | .orR cs, hwf => by
      have hcs : wfList cs = true := by simpa [wf] using hwf
      have ih := transformList_wf msi axf cs hcs
      constructor
      · intro hagg
        have hac : hasAggList cs = true := by simpa [hasAgg] using hagg
        rcases ih.1 hac with h1 | h1
        · left
          simp only [transform, h1]
          rfl
        · right
          simp only [transform, h1]
          rfl
      · intro hagg
        have hac : hasAggList cs = false := by simpa [hasAgg] using hagg
        rcases ih.2 hac with ⟨vs, hvs, hcall⟩
        rcases FT_or_rule_ok vs hcall with ⟨p, hp⟩
        refine ⟨p, ?_⟩
        simp only [transform, hvs]
        exact hp
  | .pipe body agg, hwf => by
      have hb : wf body = true := by
        have := hwf
        simp [wf] at this
        exact this.1
      have ha : aggOk agg = true := by
        have := hwf
        simp [wf] at this
        exact this.2
      have ihb := transform_wf msi axf body hb
      constructor
      · intro hagg
        by_cases hab : hasAgg body = true
        · rcases ihb.1 hab with h1 | h1
          · left
            match agg with
            | none =>
                simp only [transform, h1]
                rfl
            | some a =>
                simp only [transform, h1]
                rfl
          · right
            match agg with
            | none =>
                simp only [transform, h1]
                rfl
            | some a =>
                simp only [transform, h1]
                rfl
        · have hab2 : hasAgg body = false := by
            cases hx : hasAgg body
            · rfl
            · exact absurd hx hab
          rcases ihb.2 hab2 with ⟨p, hp⟩
          match agg, ha with
          | none, _ =>
              exfalso
              simp [hasAgg, hab2] at hagg
          | some (.aggExpr fn fld grp op v), _ =>
              left
              simp only [transform, hp]
              rfl
          | some (.nearAgg b), hwb =>
              have hwb2 : wf b = true := by simpa [aggOk] using hwb
              have ihb2 := transform_wf msi axf b hwb2
              by_cases habb : hasAgg b = true
              · rcases ihb2.1 habb with h2 | h2
                · left
                  simp only [transform, hp, h2]
                  rfl
                · right
                  simp only [transform, hp, h2]
                  rfl
              · have habb2 : hasAgg b = false := by
                  cases hx : hasAgg b
                  · rfl
                  · exact absurd hx habb
                rcases ihb2.2 habb2 with ⟨pb, hpb⟩
                right
                simp only [transform, hp, hpb]
                rfl
      · intro hagg
        have h2 : hasAgg body = false ∧ agg.isSome = false := by
          simpa [hasAgg, Bool.or_eq_false_iff] using hagg
        have hanone : agg = none := by
          cases agg with
          | none => rfl
          | some a => simp [Option.isSome] at h2
        subst hanone
        rcases ihb.2 h2.1 with ⟨p, hp⟩
        refine ⟨p, ?_⟩
        simp only [transform, hp]
        rfl

/-- List version of `transform_wf`. -/
theorem transformList_wf {E : Type} (msi : SigCore → E → String → Bool)
    (axf : SigCore → E → Option Nat → Option String → Bool) :
    ∀ ts : List PT, wfList ts = true →
      (hasAggList ts = true → isUnsupported (transformList msi axf ts)) ∧
      (hasAggList ts = false →
        ∃ vs, transformList msi axf ts = .ok vs ∧ vs.all TVal.isCallable = true)
  | [], _ => by
      constructor
      · intro hagg
        simp [hasAggList] at hagg
      · intro _
        exact ⟨[], by simp [transformList], by simp⟩
  | t :: ts, hwf => by
      have ht : wf t = true := by
        have := hwf
        simp [wfList] at this
        exact this.1
      have hts : wfList ts = true := by
        have := hwf
        simp [wfList] at this
        exact this.2
      have ih1 := transform_wf msi axf t ht
      have ih2 := transformList_wf msi axf ts hts
      constructor
      · intro hagg
        by_cases hat : hasAgg t = true
        · rcases ih1.1 hat with h1 | h1
          · left
            simp only [transformList, h1]
            rfl
          · right
            simp only [transformList, h1]
            rfl
        · have hat2 : hasAgg t = false := by
            cases hx : hasAgg t
            · rfl
            · exact absurd hx hat
          have hats : hasAggList ts = true := by
            simp [hasAggList, hat2] at hagg
            exact hagg
          rcases ih1.2 hat2 with ⟨p, hp⟩
          rcases ih2.1 hats with h1 | h1
          · left
            simp only [transformList, hp, h1]
            rfl
          · right
            simp only [transformList, hp, h1]
            rfl
      · intro hagg
        have h2 : hasAgg t = false ∧ hasAggList ts = false := by
          simpa [hasAggList, Bool.or_eq_false_iff] using hagg
        rcases ih1.2 h2.1 with ⟨p, hp⟩
        rcases ih2.2 h2.2 with ⟨vs, hvs, hcall⟩
        refine ⟨.pred p :: vs, ?_, ?_⟩
        · simp only [transformList, hp, hvs]
          rfl
        · simp [TVal.isCallable, hcall]

end

theorem dictGet_cons_hit {α : Type} (x : String × α) (l : List (String × α)) (t : String)
    (h : (x.1 == t) = true) : dictGet (x :: l) t = some x.2 := by
  simp only [dictGet, List.find?, h]
  rfl

theorem dictGet_cons_miss {α : Type} (x : String × α) (l : List (String × α)) (t : String)
    (h : (x.1 == t) = false) : dictGet (x :: l) t = dictGet l t := by
  simp only [dictGet, List.find?, h]

theorem dictGet_map_replace {α : Type} (d : List (String × α)) (k : String) (v : α)
    (h : dictContains d k = true) :
    dictGet (d.map fun p => if p.1 == k then (k, v) else p) k = some v := by
  induction d with
  | nil => simp [dictContains] at h
  | cons p ps ih =>
      rw [List.map_cons]
      by_cases hp : (p.1 == k) = true
      · rw [if_pos hp, dictGet_cons_hit _ _ _ (by simp)]
      · rw [if_neg hp]
        have hp2 : (p.1 == k) = false := by
          cases hx : p.1 == k
          · rfl
          · exact absurd hx hp
        have h2 : dictContains ps k = true := by
          simp only [dictContains, List.any_cons, hp2, Bool.false_or] at h
          exact h
        rw [dictGet_cons_miss _ _ _ hp2]
        exact ih h2

theorem dictGet_append_single {α : Type} (d : List (String × α)) (k : String) (v : α)
    (h : dictContains d k = false) :
    dictGet (d ++ [(k, v)]) k = some v := by
  induction d with
  | nil =>
      rw [List.nil_append, dictGet_cons_hit _ _ _ (by simp)]
  | cons p ps ih =>
      have hp : (p.1 == k) = false := by
        simp only [dictContains, List.any_cons, Bool.or_eq_false_iff] at h
        exact h.1
      have h2 : dictContains ps k = false := by
        simp only [dictContains, List.any_cons, Bool.or_eq_false_iff] at h
        exact h.2
      rw [List.cons_append, dictGet_cons_miss _ _ _ hp]
      exact ih h2

theorem dictGet_dictSet_same {α : Type} (d : List (String × α)) (k : String) (v : α) :
    dictGet (dictSet d k v) k = some v := by
  by_cases h : dictContains d k = true
  · simp only [dictSet, h, if_true]
    exact dictGet_map_replace d k v h
  · have h2 : dictContains d k = false := by
      cases hx : dictContains d k
      · rfl
      · exact absurd hx h
    simp only [dictSet, h2, Bool.false_eq_true, if_false]
    exact dictGet_append_single d k v h2

theorem dictGet_map_replace_other {α : Type} (d : List (String × α)) (k : String)
    (v : α) (t : String) (ht : t ≠ k) :
    dictGet (d.map fun p => if p.1 == k then (k, v) else p) t = dictGet d t := by
  induction d with
  | nil => simp [dictGet]
  | cons p ps ih =>
      rw [List.map_cons]
      by_cases hp : (p.1 == k) = true
      · have hkt : ((k, v).1 == t) = false :=
          beq_false_of_ne (fun hx => ht hx.symm)
        have hpt : (p.1 == t) = false := by
          apply beq_false_of_ne
          intro hx
          apply ht
          rw [← hx]
          exact beq_iff_eq.mp hp
        rw [if_pos hp, dictGet_cons_miss _ _ _ hkt, dictGet_cons_miss _ _ _ hpt]
        exact ih
      · rw [if_neg hp]
        by_cases hpt : (p.1 == t) = true
        · rw [dictGet_cons_hit _ _ _ hpt, dictGet_cons_hit _ _ _ hpt]
        · have hpt2 : (p.1 == t) = false := by
            cases hx : p.1 == t
            · rfl
            · exact absurd hx hpt
          rw [dictGet_cons_miss _ _ _ hpt2, dictGet_cons_miss _ _ _ hpt2]
          exact ih

theorem dictGet_append_single_other {α : Type} (d : List (String × α)) (k : String)
    (v : α) (t : String) (ht : t ≠ k) :
    dictGet (d ++ [(k, v)]) t = dictGet d t := by
  induction d with
  | nil =>
      have hkt : ((k, v).1 == t) = false :=
        beq_false_of_ne (fun hx => ht hx.symm)
      rw [List.nil_append, dictGet_cons_miss _ _ _ hkt]
  | cons p ps ih =>
      rw [List.cons_append]
      by_cases hpt : (p.1 == t) = true
      · rw [dictGet_cons_hit _ _ _ hpt, dictGet_cons_hit _ _ _ hpt]
      · have hpt2 : (p.1 == t) = false := by
          cases hx : p.1 == t
          · rfl
          · exact absurd hx hpt
        rw [dictGet_cons_miss _ _ _ hpt2, dictGet_cons_miss _ _ _ hpt2]
        exact ih

theorem dictGet_dictSet_other {α : Type} (d : List (String × α)) (k : String) (v : α)
    (t : String) (ht : t ≠ k) :
    dictGet (dictSet d k v) t = dictGet d t := by
  by_cases h : dictContains d k = true
  · simp only [dictSet, h, if_true]
    exact dictGet_map_replace_other d k v t ht
  · have h2 : dictContains d k = false := by
      cases hx : dictContains d k
      · rfl
      · exact absurd hx h
    simp only [dictSet, h2, Bool.false_eq_true, if_false]
    exact dictGet_append_single_other d k v t ht

theorem dictContains_dictDel_self {α : Type} (d : List (String × α)) (k : String) :
    dictContains (dictDel d k) k = false := by
  induction d with
  | nil => simp [dictContains, dictDel]
  | cons p ps ih =>
      by_cases hp : (p.1 == k) = true
      · simp only [dictDel, List.filter_cons, hp, Bool.not_true, if_false]
        simpa [dictDel] using ih
      · have hp2 : (p.1 == k) = false := by
          cases hx : p.1 == k
          · rfl
          · exact absurd hx hp
        simp only [dictDel, List.filter_cons, hp2, Bool.not_false, if_true]
        simp only [dictContains, List.any_cons, hp2, Bool.false_or]
        simp only [dictDel, dictContains] at ih
        exact ih

theorem dictGet_dictDel_other {α : Type} (d : List (String × α)) (k : String)
    (t : String) (ht : t ≠ k) :
    dictGet (dictDel d k) t = dictGet d t := by
  induction d with
  | nil => simp [dictGet, dictDel]
  | cons p ps ih =>
      by_cases hp : (p.1 == k) = true
      · have hpt : (p.1 == t) = false := by
          apply beq_false_of_ne
          intro hx
          apply ht
          rw [← hx]
          exact beq_iff_eq.mp hp
        simp only [dictDel, List.filter_cons, hp, Bool.not_true, if_false]
        rw [dictGet_cons_miss _ _ _ hpt]
        simpa [dictDel] using ih
      · have hp2 : (p.1 == k) = false := by
          cases hx : p.1 == k
          · rfl
          · exact absurd hx hp
        simp only [dictDel, List.filter_cons, hp2, Bool.not_false, if_true]
        by_cases hpt : (p.1 == t) = true
        · rw [dictGet_cons_hit _ _ _ hpt, dictGet_cons_hit _ _ _ hpt]
        · have hpt2 : (p.1 == t) = false := by
            cases hx : p.1 == t
            · rfl
            · exact absurd hx hpt
          rw [dictGet_cons_miss _ _ _ hpt2, dictGet_cons_miss _ _ _ hpt2]
          simpa [dictDel] using ih

theorem dictContains_dictDel_other {α : Type} (d : List (String × α)) (k : String)
    (t : String) (ht : t ≠ k) :
    dictContains (dictDel d k) t = dictContains d t := by
  induction d with
  | nil => simp [dictContains, dictDel]
  | cons p ps ih =>
      by_cases hp : (p.1 == k) = true
      · have hpt : (p.1 == t) = false := by
          apply beq_false_of_ne
          intro hx
          apply ht
          rw [← hx]
          exact beq_iff_eq.mp hp
        simp only [dictDel, List.filter_cons, hp, Bool.not_true, if_false]
        simp only [dictContains, List.any_cons, hpt, Bool.false_or]
        simpa [dictDel, dictContains] using ih
      · have hp2 : (p.1 == k) = false := by
          cases hx : p.1 == k
          · rfl
          · exact absurd hx hp
        simp only [dictDel, List.filter_cons, hp2, Bool.not_false, if_true]
        simp only [dictContains, List.any_cons]
        have h2 := ih
        simp only [dictDel, dictContains] at h2
        rw [h2]

theorem delStep_contains_self {α : Type} (d : List (String × α)) (r : String) :
    dictContains (if dictContains d r then dictDel d r else d) r = false := by
  by_cases h : dictContains d r = true
  · simp only [h, if_true]
    exact dictContains_dictDel_self d r
  · have h2 : dictContains d r = false := by
      cases hx : dictContains d r
      · rfl
      · exact absurd hx h
    simp only [h2, Bool.false_eq_true, if_false]

theorem delStep_contains_other {α : Type} (d : List (String × α)) (r t : String)
    (ht : t ≠ r) :
    dictContains (if dictContains d r then dictDel d r else d) t = dictContains d t := by
  by_cases h : dictContains d r = true
  · simp only [h, if_true]
    exact dictContains_dictDel_other d r t ht
  · have h2 : dictContains d r = false := by
      cases hx : dictContains d r
      · rfl
      · exact absurd hx h
    simp only [h2, Bool.false_eq_true, if_false]

theorem delStep_get_other {α : Type} (d : List (String × α)) (r t : String)
    (ht : t ≠ r) :
    dictGet (if dictContains d r then dictDel d r else d) t = dictGet d t := by
  by_cases h : dictContains d r = true
  · simp only [h, if_true]
    exact dictGet_dictDel_other d r t ht
  · have h2 : dictContains d r = false := by
      cases hx : dictContains d r
      · rfl
      · exact absurd hx h
    simp only [h2, Bool.false_eq_true, if_false]

theorem removeForbidden_contains_forbidden {E : Type} (d : List (String × Rule E))
    (r : String) (hr : r ∈ forbidden_rules) :
    dictContains (removeForbidden d) r = false := by
  have hne : "RDP over Reverse SSH Tunnel WFP" ≠ "Suspicious Execution from Outlook" := by
    decide
  simp only [forbidden_rules, List.mem_cons, List.mem_singleton, List.not_mem_nil,
    or_false] at hr
  rcases hr with hr | hr
  · subst hr
    simp only [removeForbidden, forbidden_rules, List.foldl_cons, List.foldl_nil]
    rw [delStep_contains_other _ _ _ hne]
    exact delStep_contains_self d _
  · subst hr
    simp only [removeForbidden, forbidden_rules, List.foldl_cons, List.foldl_nil]
    exact delStep_contains_self _ _

theorem removeForbidden_get_other {E : Type} (d : List (String × Rule E))
    (t : String) (ht : t ∉ forbidden_rules) :
    dictGet (removeForbidden d) t = dictGet d t := by
  have ht1 : t ≠ "RDP over Reverse SSH Tunnel WFP" := by
    intro hx
    exact ht (by rw [hx]; simp [forbidden_rules])
  have ht2 : t ≠ "Suspicious Execution from Outlook" := by
    intro hx
    exact ht (by rw [hx]; simp [forbidden_rules])
  simp only [removeForbidden, forbidden_rules, List.foldl_cons, List.foldl_nil]
  rw [delStep_get_other _ _ _ ht2, delStep_get_other _ _ _ ht1]

theorem mem_dictContains {α : Type} (d : List (String × α)) (k : String) (r : α)
    (h : (k, r) ∈ d) : dictContains d k = true := by
  simp only [dictContains, List.any_eq_true]
  exact ⟨(k, r), h, by simp⟩

/-- Every alert `check_event`'s rule loop adds on top of the initial state is
named after one of the scanned registry entries, provided the external
timeframe correlator only appends alerts carrying the rule name it was
given. -/
theorem check_event_fold_names {E TE : Type}
    (ct : Rule E → String → List TE → E → List (Alert E) → List TE × List (Alert E))
    (hct : ∀ r name timed ev alerts, ∃ extra,
      (ct r name timed ev alerts).2 = alerts ++ extra ∧ ∀ a ∈ extra, a.name = name)
    (event : E) (rules : List (String × Rule E)) :
    ∀ (init : List (Alert E) × List TE),
      ∀ a ∈ (rules.foldl (check_event_step ct event) init).1,
        a ∈ init.1 ∨ ∃ k r, (k, r) ∈ rules ∧ a.name = k := by
  induction rules with
  | nil =>
      intro init a ha
      exact .inl (by simpa using ha)
  | cons entry rest ih =>
      intro init a ha
      rw [List.foldl_cons] at ha
      rcases ih (check_event_step ct event init entry) a ha with h | ⟨k, r, hkr, hname⟩
      · by_cases hcond : entry.2.condition entry.2.core event = true
        · cases htf : entry.2.timeframe with
          | some tf =>
              rcases hct entry.2 entry.1 init.2 event init.1 with ⟨extra, hext, hnames⟩
              have hstep : (check_event_step ct event init entry).1 = init.1 ++ extra := by
                simp only [check_event_step, hcond, if_true, htf]
                exact hext
              rw [hstep] at h
              rcases List.mem_append.mp h with h2 | h2
              · exact .inl h2
              · exact .inr ⟨entry.1, entry.2, List.mem_cons_self _ _, hnames a h2⟩
          | none =>
              have hstep : (check_event_step ct event init entry).1 =
                  init.1 ++ [⟨entry.1, entry.2.description, event, entry.2.level,
                    entry.2.file_name⟩] := by
                simp only [check_event_step, hcond, if_true, htf, callback_buildReport]
              rw [hstep] at h
              rcases List.mem_append.mp h with h2 | h2
              · exact .inl h2
              · have : a = ⟨entry.1, entry.2.description, event, entry.2.level,
                    entry.2.file_name⟩ := by simpa using h2
                exact .inr ⟨entry.1, entry.2, List.mem_cons_self _ _, by rw [this]⟩
        · have hstep : check_event_step ct event init entry = init := by
            simp only [check_event_step, hcond]
            simp
          rw [hstep] at h
          exact .inl h
      · exact .inr ⟨k, r, List.mem_cons_of_mem _ hkr, hname⟩

/-- C1: for every condition built only from search-id atoms combined with
AND, OR, NOT and parentheses (a `boolOnly` parse tree), and for every
behaviour of the single-match resolver (hence every assignment of booleans
to the atoms), the predicate compiled by `prepare_condition` evaluates to
the same boolean as evaluating the expression under standard precedence
NOT > AND > OR with parentheses overriding (`evalStd` over the tree the
grammar produces). -/
theorem c1_boolean_conditions_standard_precedence {E : Type}
    (msi : SigCore → E → String → Bool)
    (axf : SigCore → E → Option Nat → Option String → Bool)
    (s : String) (t : PT)
    (hparse : parseCondition s = .ok t)
    (hbool : boolOnly t = true)
    (sig : SigCore) (ev : E) :
    runResult (prepare_condition msi axf (.str s)) sig ev =
      some (evalStd (fun n => msi sig ev n) t) := by
  have ht := transform_boolOnly msi axf t hbool
  have hpc : prepare_condition msi axf (.str s) = transform msi axf t := by
    simp only [prepare_condition, hparse]
    rfl
  rw [hpc, ht]
  rfl

/-- Witness for C1 at the condition `"a or b and c"` with only atom `a`
true: standard precedence gives `a or (b and c)` = `true` (the wrong
grouping `(a or b) and c` would give `false`). -/
theorem c1_witness :
    runResult (prepare_condition msiW axfW (.str "a or b and c")) ⟨[]⟩ 0 = some true := by
  have h := c1_boolean_conditions_standard_precedence msiW axfW "a or b and c" tC1
    (by rfl) (by rfl) ⟨[]⟩ 0
  rw [h]
  rfl

/-- C2: a condition text containing an aggregation clause or a near clause
always fails compilation with an `UnsupportedFeature` failure naming the
construct, regardless of the rest of the expression (first conjunct, over
every grammatical tree containing such a clause); the failure is a compile
failure, not a parse failure — the grammar accepts the syntax (second
conjunct) — and no predicate is ever produced (the `Except.error` is the
whole result, so nothing is left to fail during later evaluation). -/
theorem c2_aggregation_near_unsupported {E : Type}
    (msi : SigCore → E → String → Bool)
    (axf : SigCore → E → Option Nat → Option String → Bool) :
    (∀ t : PT, wf t = true → hasAgg t = true → isUnsupported (transform msi axf t)) ∧
    (parseCondition "a | count() > 5" = .ok tC2 ∧ wf tC2 = true ∧ hasAgg tC2 = true) ∧
    prepare_condition msi axf (.str "a | count() > 5") =
      .error (.unsupportedFeature "Aggregation expressions not supported.") ∧
    prepare_condition msi axf (.str "a | near b") =
      .error (.unsupportedFeature "Near operation not supported.") := by
  refine ⟨fun t hwf hagg => (transform_wf msi axf t hwf).1 hagg,
    ⟨by rfl, by rfl, by rfl⟩, by rfl, by rfl⟩

/-- Witness for C2 at the tree of `"a | count() > 5"`. -/
theorem c2_witness : isUnsupported (transform msiW axfW tC2) :=
  (c2_aggregation_near_unsupported msiW axfW).1 tC2 (by rfl) (by rfl)

/-- C7: on grammatical input the defensive internal-consistency checks of
the fold never fire: compilation never returns the `ValueError` of the
atom/and/or callable checks, the `AssertionError` of `not_rule`, or the
`AttributeError` of the `x_of` right-hand-side inspection — every folded
child is a valid predicate where one is required. -/
theorem c7_defensive_checks_unreachable {E : Type}
    (msi : SigCore → E → String → Bool)
    (axf : SigCore → E → Option Nat → Option String → Bool)
    (t : PT) (h : wf t = true) :
    transform msi axf t ≠ .error .valueError ∧
    transform msi axf t ≠ .error .assertionError ∧
    transform msi axf t ≠ .error .attributeError := by
  have hs := transform_wf msi axf t h
  by_cases hagg : hasAgg t = true
  · rcases hs.1 hagg with h1 | h1 <;> rw [h1] <;> exact ⟨by simp, by simp, by simp⟩
  · have hagg2 : hasAgg t = false := by
      cases hx : hasAgg t
      · rfl
      · exact absurd hx hagg
    rcases hs.2 hagg2 with ⟨p, hp⟩
    rw [hp]
    exact ⟨by simp, by simp, by simp⟩

/-- Witness for C7 at the tree of `"a or b and c"`. -/
theorem c7_witness :
    transform msiW axfW tC1 ≠ .error .valueError ∧
    transform msiW axfW tC1 ≠ .error .assertionError ∧
    transform msiW axfW tC1 ≠ .error .attributeError :=
  c7_defensive_checks_unreachable msiW axfW tC1 (by rfl)

/-- C5: the `x_of` compilation delegates to the external x-of resolver with
the parsed count (`none` as the ALL marker) and selector (`none` as the THEM
marker) — first two conjuncts, for any resolver; and under the
spec-modelled resolver, the compiled predicate of `"all of them"` is true
iff every search block declared on the rule matches the event, while the
predicate of `N of them` (tree with integer literal `N ≥ 1`) is true iff at
least `N` of the declared blocks match. -/
theorem c5_x_of_them_semantics {E : Type}
    (msi : SigCore → E → String → Bool) (n : Nat) (hn : 1 ≤ n)
    (sig : SigCore) (ev : E) :
    (∀ axf : SigCore → E → Option Nat → Option String → Bool,
        transform msi axf (PT.xOf .all PT.themTok) =
          .ok (.pred fun s e => axf s e none none)) ∧
    (∀ axf : SigCore → E → Option Nat → Option String → Bool,
        transform msi axf (PT.xOf (.num n) PT.themTok) =
          .ok (.pred fun s e => axf s e (some n) none)) ∧
    runResult (prepare_condition msi (analyze_x_of_model msi) (.str "all of them")) sig ev =
      some (sig.searchBlocks.all fun b => msi sig ev b) ∧
    runResult (transform msi (analyze_x_of_model msi) (PT.xOf (.num n) PT.themTok)) sig ev =
      some (decide (n ≤ (sig.searchBlocks.filter fun b => msi sig ev b).length)) := by
  refine ⟨fun axf => by rfl, fun axf => by rfl, by rfl, by rfl⟩

/-- Witness for C5 with `n = 2` over a rule declaring three blocks of which
one matches. -/
theorem c5_witness :
    runResult (transform msiW (analyze_x_of_model msiW) (PT.xOf (.num 2) PT.themTok))
        ⟨["a", "b", "c"]⟩ 0 =
      some (decide (2 ≤ ((⟨["a", "b", "c"]⟩ : SigCore).searchBlocks.filter
        fun b => msiW ⟨["a", "b", "c"]⟩ 0 b).length)) :=
  (c5_x_of_them_semantics msiW 2 (by decide) ⟨["a", "b", "c"]⟩ 0).2.2.2

/-- C6: compiling a fragment list yields exactly the compilation of the
single string obtained by parenthesizing each fragment and joining with
`or` — so the two predicates agree on every `(signature, event)` input —
and in particular the list `["a", "b"]` compiles identically to
`"(a) or (b)"`. -/
theorem c6_fragment_list_joined_or {E : Type}
    (msi : SigCore → E → String → Bool)
    (axf : SigCore → E → Option Nat → Option String → Bool)
    (fs : List String) (h : fs ≠ []) :
    (∀ sig ev, runResult (prepare_condition msi axf (.list fs)) sig ev =
        runResult (prepare_condition msi axf (.str (joinFragments fs))) sig ev) ∧
    prepare_condition msi axf (.list ["a", "b"]) =
      prepare_condition msi axf (.str "(a) or (b)") := by
  constructor
  · intro sig ev
    rfl
  · have hj : joinFragments ["a", "b"] = "(a) or (b)" := by decide
    have h1 : prepare_condition msi axf (.list ["a", "b"]) =
        prepare_condition msi axf (.str (joinFragments ["a", "b"])) := rfl
    rw [h1, hj]

/-- Witness for C6 at the fragment list `["a", "b"]`. -/
theorem c6_witness :
    prepare_condition msiW axfW (.list ["a", "b"]) =
      prepare_condition msiW axfW (.str "(a) or (b)") :=
  (c6_fragment_list_joined_or msiW axfW ["a", "b"] (by decide)).2

/-- C10: for the empty fragment list `prepare_condition` builds the
condition string `"()"`, which the grammar rejects, so compilation fails
with a parse (syntax) error — not an `UnsupportedFeature` failure and not a
vacuous predicate. -/
theorem c10_empty_fragment_list_parse_error {E : Type}
    (msi : SigCore → E → String → Bool)
    (axf : SigCore → E → Option Nat → Option String → Bool) :
    joinFragments ([] : List String) = "()" ∧
    parseCondition "()" = .error .parseError ∧
    prepare_condition msi axf (.list ([] : List String)) = .error .parseError := by
  refine ⟨by decide, by rfl, by rfl⟩

/-- C8: `add_signature` stores the loaded rule in the registry keyed by its
title; a duplicate title replaces the earlier rule (last-write-wins, no
error — `add_signature` is total), and a fresh title leaves every other
registered rule in place. -/
theorem c8_registry_last_write_wins {E : Type} (s : PySigma E) (r r1 r2 : Rule E)
    (t : String) (ht : t ≠ r.title) (h12 : r1.title = r2.title) :
    dictGet (add_signature s r).rules r.title = some r ∧
    dictGet (add_signature s r).rules t = dictGet s.rules t ∧
    dictGet (add_signature (add_signature s r1) r2).rules r1.title = some r2 := by
  refine ⟨?_, ?_, ?_⟩
  · exact dictGet_dictSet_same _ _ _
  · exact dictGet_dictSet_other _ _ _ _ ht
  · show dictGet (dictSet (add_signature s r1).rules r2.title r2) r1.title = some r2
    rw [h12]
    exact dictGet_dictSet_same _ _ _

/-- Witness for C8: storing, replacement under an equal title, and
preservation of an unrelated title. -/
theorem c8_witness :
    dictGet (add_signature sampleState goodRule).rules goodRule.title = some goodRule :=
  (c8_registry_last_write_wins sampleState goodRule tfRule tfRule "other"
    (by decide) rfl).1

/-- C9: `check_events` deletes the deny-listed titles from the instance's
own registry (the returned state's registry is exactly the filtered one),
so after any call neither deny-listed title is present any more, while the
binding of every other title is unchanged. -/
theorem c9_denylist_deletion_is_permanent {RawE E TE : Type}
    (prep : RawE → E)
    (ct : Rule E → String → List TE → E → List (Alert E) → List TE × List (Alert E))
    (s : PySigma E) (events : List RawE) (t : String) (ht : t ∉ forbidden_rules) :
    (check_events prep ct s events).2.rules = removeForbidden s.rules ∧
    (∀ r ∈ forbidden_rules,
      dictContains (check_events prep ct s events).2.rules r = false) ∧
    dictGet (check_events prep ct s events).2.rules t = dictGet s.rules t := by
  refine ⟨rfl, ?_, ?_⟩
  · intro r hr
    show dictContains (removeForbidden s.rules) r = false
    exact removeForbidden_contains_forbidden s.rules r hr
  · show dictGet (removeForbidden s.rules) t = dictGet s.rules t
    exact removeForbidden_get_other s.rules t ht

/-- Witness for C9: after a pass, the deny-listed title is gone from the
instance state and the other title's binding is untouched. -/
theorem c9_witness :
    dictGet (check_events id (@inertCorrelator Nat Nat) sampleState [5]).2.rules "good" =
      dictGet sampleState.rules "good" :=
  (c9_denylist_deletion_is_permanent id inertCorrelator sampleState [5] "good"
    (by decide)).2.2

theorem mem_foldl_append {α β : Type} (f : β → List α) (events : List β) :
    ∀ (init : List α) (a : α),
      a ∈ events.foldl (fun acc ev => acc ++ f ev) init →
      a ∈ init ∨ ∃ ev ∈ events, a ∈ f ev := by
  induction events with
  | nil =>
      intro init a ha
      exact .inl (by simpa using ha)
  | cons e rest ih =>
      intro init a ha
      rw [List.foldl_cons] at ha
      rcases ih (init ++ f e) a ha with h | ⟨ev, hev, hin⟩
      · rcases List.mem_append.mp h with h2 | h2
        · exact .inl h2
        · exact .inr ⟨e, List.mem_cons_self _ _, h2⟩
      · exact .inr ⟨ev, List.mem_cons_of_mem _ hev, hin⟩

/-- C4: in an evaluation pass the deny-list is removed from the working
rule set once, before the per-event loop (first conjunct: the alerts of the
pass are exactly the fold of `check_event` over one fixed filtered
registry), and — provided the external timeframe correlator only appends
alerts named after the rule it is handed — no alert of the pass carries a
deny-listed title, so a rule registered under such a title never
contributes an alert, whatever the events contain; absence of a deny-listed
title is not an error (`check_events` is total). -/
theorem c4_denylist_never_alerts {RawE E TE : Type}
    (prep : RawE → E)
    (ct : Rule E → String → List TE → E → List (Alert E) → List TE × List (Alert E))
    (hct : ∀ r name timed ev alerts, ∃ extra,
      (ct r name timed ev alerts).2 = alerts ++ extra ∧ ∀ a ∈ extra, a.name = name)
    (s : PySigma E) (events : List RawE) :
    ((check_events prep ct s events).1 =
      events.foldl
        (fun acc event => acc ++ check_event prep ct event (removeForbidden s.rules)) []) ∧
    ∀ a ∈ (check_events prep ct s events).1, a.name ∉ forbidden_rules := by
  refine ⟨rfl, ?_⟩
  intro a ha hforb
  have ha2 : a ∈ events.foldl
      (fun acc event => acc ++ check_event prep ct event (removeForbidden s.rules)) [] := ha
  rcases mem_foldl_append _ events [] a ha2 with h | ⟨ev, _, hin⟩
  · simp at h
  · have hin2 : a ∈ ((removeForbidden s.rules).foldl
        (check_event_step ct (prep ev)) ([], [])).1 := hin
    rcases check_event_fold_names ct hct (prep ev) (removeForbidden s.rules) ([], [])
        a hin2 with h | ⟨k, r, hkr, hname⟩
    · simp at h
    · have hcont : dictContains (removeForbidden s.rules) k = true :=
        mem_dictContains _ k r hkr
      have hfalse : dictContains (removeForbidden s.rules) k = false := by
        apply removeForbidden_contains_forbidden
        rw [← hname]
        exact hforb
      rw [hcont] at hfalse
      simp at hfalse

/-- Witness for C4: with a deny-listed rule registered alongside an always
matching ordinary rule, the alert actually produced is not deny-listed. -/
theorem c4_witness :
    (⟨"good", "gd", 5, "low", "gf"⟩ : Alert Nat).name ∉ forbidden_rules :=
  (c4_denylist_never_alerts id (@inertCorrelator Nat Nat)
      (fun r name timed ev alerts => ⟨[], by simp [inertCorrelator], by simp⟩)
      sampleState [5]).2
    ⟨"good", "gd", 5, "low", "gf"⟩ (by decide)

/-- C3 (evaluation at the failing input): `check_event` creates the
`timed_events` accumulator as a fresh empty list inside each call, and
`check_events` calls `check_event` once per event, so the timeframe
correlator never sees state accumulated for an earlier event of the same
pass.  Concretely: a timeframe rule matches two consecutive events, the
correlator records the size of the accumulator it receives (in the alert's
`event` field) and appends the event to the accumulator; both invocations
observe size `0`, where a per-pass accumulating state would give the second
invocation size `1`. -/
theorem c3_accumulator_fresh_per_event :
    ((check_events id recordingCorrelator
        ⟨[("tf-rule", tfRule)], none⟩ [10, 20]).1.map (fun a => a.event)) = [0, 0] := by
  decide
